import Mathlib

/-!
Verification of the checkpoint/decay accounting core of the voting-escrow
contract (contracts/astro-voting-escrow/src/utils.rs), shallowly embedded in
Lean 4.

Machine-integer conventions of the embedding:
* `Uint128` values are `Nat`s together with the bound `≤ U128MAX` stated as a
  hypothesis where it matters; cosmwasm `Uint128` arithmetic panics on
  overflow rather than wrapping, and the embedding models each checked /
  panicking step explicitly.
* cosmwasm `Decimal` is an 18-digit fixed-point wrapper around `Uint128`; it
  is embedded as the `Nat` of its atomics (the represented rational is
  `atomics / 10^18`, `DECIMAL_FRACTIONAL = 10^18`).
* `u64` period indices are `Nat`s bounded by `2^64` in hypotheses; the `u64`
  subtraction `period - point.start` is guarded by the callers' contract
  `period ≥ point.start`, matched by a hypothesis.
* Fallible Rust paths return `Except`; a Rust panic is a distinct outcome
  constructor where a claim depends on it.
-/

/-- cosmwasm `Uint128::MAX` = 2^128 - 1. -/
def U128MAX : Nat := 2 ^ 128 - 1

/-- cosmwasm `Decimal::DECIMAL_FRACTIONAL` = 10^18 (denominator of the
18-decimal fixed point). -/
def DECIMAL_FRACTIONAL : Nat := 10 ^ 18

/-- The literal `500000000000000000` from `DecimalRoundedCheckedMul`
("0.5 in Decimal"). -/
def DECIMAL_HALF : Nat := 500000000000000000

/-- Contract errors of the voting-escrow contract that the embedded functions
can produce (error.rs of the contract is not under src/; the variants are
modelled from the spec's error taxonomy and the constructor names used in
utils.rs). -/
inductive ContractError where
  | lockTimeLimitsError : ContractError
  | unauthorized : ContractError
  | addressBlacklisted : String → ContractError
  deriving DecidableEq, Repr

/-- Embeds `time_limits_check` (utils.rs). `WEEK` and `MAX_LOCK_TIME` live in
contract.rs which is not under src/; they are passed as parameters.
Source: `if !(WEEK..=MAX_LOCK_TIME).contains(&time) { Err(...) } else { Ok(()) }`. -/
def time_limits_check (week maxLockTime time : Nat) : Except ContractError Unit :=
  if ¬ (week ≤ time ∧ time ≤ maxLockTime) then
    Except.error ContractError.lockTimeLimitsError
  else
    Except.ok ()

/-- Embeds `get_period` (utils.rs): `time / WEEK` (integer division). -/
def get_period (week time : Nat) : Nat := time / week

/-- Config as far as the embedded checks read it (state.rs is not under src/;
modelled from the spec: the configured deposit-asset identity). -/
structure Config where
  deposit_token_addr : String
  deriving DecidableEq, Repr

/-- Embeds `xastro_token_check` (utils.rs): error `Unauthorized` unless the
sender equals the configured deposit token address. The storage read
`CONFIG.load` is passed in as a value; the check reads state and never
writes it. -/
def xastro_token_check (config : Config) (sender : String) : Except ContractError Unit :=
  if sender ≠ config.deposit_token_addr then
    Except.error ContractError.unauthorized
  else
    Except.ok ()

/-- Embeds `blacklist_check` (utils.rs): error `AddressBlacklisted(addr)` if
the address is in the blacklist. `BLACKLIST` (a stored list of addresses) is
passed in as a value; the check reads state and never writes it. -/
def blacklist_check (blacklist : List String) (addr : String) : Except ContractError Unit :=
  if addr ∈ blacklist then
    Except.error (ContractError.addressBlacklisted addr)
  else
    Except.ok ()

/-- Outcome of a cosmwasm computation step that can return a value, return an
arithmetic error, or panic (Rust process abort, e.g. `Uint128` `+=` on
overflow). -/
inductive ExecResult where
  | ok : Nat → ExecResult
  | overflowErr : ExecResult
  | panicked : ExecResult
  deriving DecidableEq, Repr

/-- Embeds `DecimalRoundedCheckedMul::checked_mul for Decimal` (utils.rs).
`atomics` is the `Decimal`'s numerator (`self.numerator()`), `amount` the
`Uint128` factor. Mirrors the source step by step:
zero short-circuit; `numerator = other.full_mul(self.numerator())` (exact in
`Uint256`); `multiply_ratio = numerator / 10^18` (floor); error if the
quotient exceeds `Uint128::MAX`; otherwise round half up — the increment
`result += Uint128::from(1)` panics if `result` is already `Uint128::MAX`. -/
def decimal_checked_mul (atomics amount : Nat) : ExecResult :=
  if atomics = 0 ∨ amount = 0 then ExecResult.ok 0
  else if U128MAX < amount * atomics / DECIMAL_FRACTIONAL then ExecResult.overflowErr
  else if DECIMAL_HALF ≤ amount * atomics % DECIMAL_FRACTIONAL then
    (if U128MAX < amount * atomics / DECIMAL_FRACTIONAL + 1 then ExecResult.panicked
     else ExecResult.ok (amount * atomics / DECIMAL_FRACTIONAL + 1))
  else ExecResult.ok (amount * atomics / DECIMAL_FRACTIONAL)

/-- Rounding rule as the spec words it (spec §4.3, refinement reference for
the rounded multiply): exact rational `num/den`; round the integer quotient up
by one when the fractional remainder is at least one half, else down. -/
def round_half_up (num den : Nat) : Nat :=
  if den ≤ 2 * (num % den) then num / den + 1 else num / den

/-- Voting-power checkpoint. Modelled from the spec: `Point` lives in state.rs
which is not under src/; the spec gives the fields (power, slope, start, end).
The slope's type is pinned by utils.rs itself: the private trait
`DecimalRoundedCheckedMul` is implemented only for `Decimal` and its only call
site is `point.slope.checked_mul(...)` in `calc_voting_power`, and the
slope-change schedule read by `fetch_slope_changes` stores `Decimal` values;
so `slope` is a `Decimal`, embedded as its atomics. `power` is a `Uint128`
amount; `start`/`end` are `u64` period indices. -/
structure Point where
  power : Nat
  slope : Nat
  start : Nat
  end_ : Nat
  deriving DecidableEq, Repr

/-- Embeds `calc_voting_power` (utils.rs):
`shift = point.slope.checked_mul(Uint128::from(period - point.start))
           .unwrap_or_else(|_| 0)`;
`point.power.checked_sub(shift).unwrap_or_else(|_| 0)`.
The `unwrap_or_else` catches only the returned `Err`; a panic inside
`checked_mul` propagates. `Nat` truncated subtraction is exactly
`checked_sub(..).unwrap_or_else(|_| 0)`. -/
def calc_voting_power (point : Point) (period : Nat) : ExecResult :=
  match decimal_checked_mul point.slope (period - point.start) with
  | ExecResult.ok shift => ExecResult.ok (point.power - shift)
  | ExecResult.overflowErr => ExecResult.ok point.power
  | ExecResult.panicked => ExecResult.panicked

/-- Embeds `calc_coefficient` (utils.rs), returning the `Decimal`'s atomics:
`Decimal::one() + Decimal::from_ratio(15u64 * interval, get_period(MAX_LOCK_TIME) * 10)`.
`Decimal::from_ratio(n, d)` is `n * 10^18 / d` with floor division. `WEEK`
and `MAX_LOCK_TIME` (contract.rs, not under src/) are parameters. -/
def calc_coefficient (week maxLockTime interval : Nat) : Nat :=
  DECIMAL_FRACTIONAL +
    15 * interval * DECIMAL_FRACTIONAL / (get_period week maxLockTime * 10)

/-- Big-endian base-256 digits of `n`, `k` bytes wide, most significant
first — the encoding `u64::to_be_bytes` uses for `U64Key` (cw-storage-plus). -/
def be_digits : Nat → Nat → List Nat
  | 0, _ => []
  | k + 1, n => n / 256 ^ k :: be_digits k (n % 256 ^ k)

/-- The raw storage key of a `U64Key`: the 8 big-endian bytes of the period. -/
def u64_key (n : Nat) : List Nat := be_digits 8 n

/-- `u64::from_be_bytes`: fold the big-endian bytes back into the number. -/
def u64_from_be (l : List Nat) : Nat := l.foldl (fun acc b => acc * 256 + b) 0

/-- Strict lexicographic byte order — the iteration order a cosmwasm storage
backend guarantees for `range` over raw keys. -/
def lex_lt : List Nat → List Nat → Bool
  | _, [] => false
  | [], _ :: _ => true
  | a :: as, b :: bs => if a < b then true else if b < a then false else lex_lt as bs

/-- Non-strict lexicographic byte order. -/
def lex_le : List Nat → List Nat → Bool
  | [], _ => true
  | _ :: _, [] => false
  | a :: as, b :: bs => if a < b then true else if b < a then false else lex_le as bs

/-- Embeds `deserialize_pair` (utils.rs): the raw key must be exactly 8 bytes
(`try_into` on `[u8; 8]`), then `u64::from_be_bytes`; the stored value is a
`Decimal` slope-change delta, carried as its atomics. -/
def deserialize_pair (pr : List Nat × Nat) : Except String (Nat × Nat) :=
  if pr.1.length = 8 then Except.ok (u64_from_be pr.1, pr.2)
  else Except.error "Deserialization error"

/-- Embeds `fetch_slope_changes` (utils.rs). The `SLOPE_CHANGES` map is given
as its raw storage form: a list of (raw key bytes, Decimal atomics) pairs in
the backend's lexicographic key order. The source ranges with
`Bound::Exclusive(U64Key::new(last_slope_change))` and
`Bound::Inclusive(U64Key::new(period))`, `Order::Ascending`, then maps
`deserialize_pair` and collects (first error aborts). -/
def fetch_slope_changes (store : List (List Nat × Nat))
    (last_slope_change period : Nat) : Except String (List (Nat × Nat)) :=
  (store.filter fun e =>
      lex_lt (u64_key last_slope_change) e.1 && lex_le e.1 (u64_key period)).mapM
    deserialize_pair

/-- Embeds `fetch_last_checkpoint` (utils.rs). The per-address slice
`HISTORY.prefix(addr)` of the checkpoint store is given as its raw storage
form: (raw key bytes, Point) pairs in lexicographic key order. The source
ranges from the start with `Bound::Inclusive(period_key)`, ascending, and
takes `.last()`; the key of the returned pair stays raw. Deserialization of
the `Point` value cannot fail in the typed model, so the `StdResult` wrapper
disappears and the result is the plain `Option`. -/
def fetch_last_checkpoint (hist : List (List Nat × Point)) (period : Nat) :
    Option (List Nat × Point) :=
  (hist.filter fun e => lex_le e.1 (u64_key period)).getLast?


/-! Arithmetic helper lemmas about the rounded fixed-point multiply. -/

lemma DECIMAL_FRACTIONAL_pos : 0 < DECIMAL_FRACTIONAL := by decide

lemma DECIMAL_FRACTIONAL_eq_two_half : DECIMAL_FRACTIONAL = 2 * DECIMAL_HALF := by decide

/-- When the exact product fits `Uint128`, `checked_mul` succeeds and returns
the round-half-up value. -/
lemma dcm_ok_of_fits (t a : Nat) (hfit : a * t ≤ U128MAX * DECIMAL_FRACTIONAL) :
    decimal_checked_mul t a = ExecResult.ok (round_half_up (a * t) DECIMAL_FRACTIONAL) := by
  unfold decimal_checked_mul
  by_cases hz : t = 0 ∨ a = 0
  · rw [if_pos hz]
    have h0 : a * t = 0 := by rcases hz with h | h <;> simp [h]
    rw [h0]
    have : round_half_up 0 DECIMAL_FRACTIONAL = 0 := by decide
    rw [this]
  · rw [if_neg hz]
    have hratio : a * t / DECIMAL_FRACTIONAL ≤ U128MAX := by
      calc a * t / DECIMAL_FRACTIONAL
          ≤ U128MAX * DECIMAL_FRACTIONAL / DECIMAL_FRACTIONAL :=
            Nat.div_le_div_right hfit
        _ = U128MAX := Nat.mul_div_cancel U128MAX DECIMAL_FRACTIONAL_pos
    rw [if_neg (Nat.not_lt.mpr hratio)]
    by_cases hrem : DECIMAL_HALF ≤ a * t % DECIMAL_FRACTIONAL
    · rw [if_pos hrem]
      have hlt : a * t / DECIMAL_FRACTIONAL < U128MAX := by
        rcases Nat.lt_or_ge (a * t / DECIMAL_FRACTIONAL) U128MAX with h | h
        · exact h
        · exfalso
          have heq : a * t / DECIMAL_FRACTIONAL = U128MAX := Nat.le_antisymm hratio h
          have hgt : U128MAX * DECIMAL_FRACTIONAL < a * t := by
            calc U128MAX * DECIMAL_FRACTIONAL
                < U128MAX * DECIMAL_FRACTIONAL + DECIMAL_HALF :=
                  Nat.lt_add_of_pos_right (by decide)
              _ ≤ DECIMAL_FRACTIONAL * (a * t / DECIMAL_FRACTIONAL)
                    + a * t % DECIMAL_FRACTIONAL := by
                  rw [heq, Nat.mul_comm]
                  exact Nat.add_le_add_left hrem _
              _ = a * t := Nat.div_add_mod (a * t) DECIMAL_FRACTIONAL
          exact absurd hfit (Nat.not_le.mpr hgt)
      rw [if_neg (Nat.not_lt.mpr (Nat.succ_le_of_lt hlt))]
      unfold round_half_up
      rw [if_pos (by rw [DECIMAL_FRACTIONAL_eq_two_half]; exact Nat.mul_le_mul_left 2 hrem)]
    · rw [if_neg hrem]
      unfold round_half_up
      rw [if_neg (by
        rw [DECIMAL_FRACTIONAL_eq_two_half]
        intro hc
        exact hrem (Nat.le_of_mul_le_mul_left hc (by decide)))]

/-- `checked_mul` reports overflow precisely when the floor of the exact
product already exceeds `Uint128::MAX`, i.e. when the product is at least
`MAX + 1`. -/
lemma dcm_err_iff (t a : Nat) :
    decimal_checked_mul t a = ExecResult.overflowErr
      ↔ (U128MAX + 1) * DECIMAL_FRACTIONAL ≤ a * t := by
  unfold decimal_checked_mul
  by_cases hz : t = 0 ∨ a = 0
  · rw [if_pos hz]
    constructor
    · intro h; exact ExecResult.noConfusion h
    · intro h
      exfalso
      have h0 : a * t = 0 := by rcases hz with h' | h' <;> simp [h']
      rw [h0] at h
      exact absurd h (by decide)
  · rw [if_neg hz]
    by_cases hov : U128MAX < a * t / DECIMAL_FRACTIONAL
    · rw [if_pos hov]
      constructor
      · intro _
        exact (Nat.le_div_iff_mul_le DECIMAL_FRACTIONAL_pos).mp (Nat.succ_le_of_lt hov)
      · intro _; rfl
    · rw [if_neg hov]
      constructor
      · intro h
        exfalso
        revert h
        split
        · split
          · intro h; exact ExecResult.noConfusion h
          · intro h; exact ExecResult.noConfusion h
        · intro h; exact ExecResult.noConfusion h
      · intro hc
        exact absurd (Nat.lt_of_succ_le ((Nat.le_div_iff_mul_le DECIMAL_FRACTIONAL_pos).mpr hc))
          hov

/-- An integer-valued `Decimal` slope (atomics a multiple of `10^18`)
multiplies exactly: no remainder, no rounding. -/
lemma dcm_int_slope (s d : Nat) (h : s * d ≤ U128MAX) :
    decimal_checked_mul (s * DECIMAL_FRACTIONAL) d = ExecResult.ok (s * d) := by
  have hfit : d * (s * DECIMAL_FRACTIONAL) ≤ U128MAX * DECIMAL_FRACTIONAL := by
    calc d * (s * DECIMAL_FRACTIONAL) = s * d * DECIMAL_FRACTIONAL := by ring
      _ ≤ U128MAX * DECIMAL_FRACTIONAL := Nat.mul_le_mul_right _ h
  rw [dcm_ok_of_fits (s * DECIMAL_FRACTIONAL) d hfit]
  have hnum : d * (s * DECIMAL_FRACTIONAL) = s * d * DECIMAL_FRACTIONAL := by ring
  unfold round_half_up
  rw [hnum, Nat.mul_mod_left, Nat.mul_div_cancel _ DECIMAL_FRACTIONAL_pos]
  rw [if_neg (by simp [DECIMAL_FRACTIONAL_pos.ne'])]

/-- Round-half-up as a single floor division, used for monotonicity. -/
lemma round_half_up_eq (num den : Nat) (hden : 0 < den) :
    round_half_up num den = (2 * num + den) / (2 * den) := by
  have hsplit : 2 * num + den = (2 * (num % den) + den) + 2 * den * (num / den) := by
    conv =>
      lhs
      rw [← Nat.div_add_mod num den]
    ring
  have hrem : num % den < den := Nat.mod_lt num hden
  have htail : (2 * (num % den) + den) / (2 * den)
      = if den ≤ 2 * (num % den) then 1 else 0 := by
    by_cases hc : den ≤ 2 * (num % den)
    · rw [if_pos hc]
      exact Nat.div_eq_of_lt_le (by omega) (by omega)
    · rw [if_neg hc]
      exact Nat.div_eq_of_lt (by omega)
  unfold round_half_up
  rw [hsplit, Nat.add_mul_div_left _ _ (by omega : 0 < 2 * den), htail]
  by_cases hc : den ≤ 2 * (num % den)
  · rw [if_pos hc, if_pos hc]; omega
  · rw [if_neg hc, if_neg hc]; omega

lemma round_half_up_mono (den n1 n2 : Nat) (hden : 0 < den) (h : n1 ≤ n2) :
    round_half_up n1 den ≤ round_half_up n2 den := by
  rw [round_half_up_eq n1 den hden, round_half_up_eq n2 den hden]
  exact Nat.div_le_div_right (by omega)

lemma round_half_up_exact (q den : Nat) (hden : 0 < den) :
    round_half_up (q * den) den = q := by
  unfold round_half_up
  rw [Nat.mul_mod_left, Nat.mul_div_cancel _ hden]
  rw [if_neg (by simp [hden.ne'])]

lemma round_half_up_ge_div (num den : Nat) :
    num / den ≤ round_half_up num den := by
  unfold round_half_up
  split
  · omega
  · omega

/-! Claim theorems: rounded multiply (C3, C4). -/

/-- C3 (confirmed): for a coefficient with atomics `t` and an amount `a` that
are representable `Uint128` values and whose exact rational product
`(t / 10^18) * a` fits the `Uint128` range, `checked_mul` returns exactly the
round-half-up of the exact product: the integer quotient rounded up by one
when the fractional remainder against the fixed-point scale is at least one
half, and rounded down otherwise. -/
theorem checked_mul_round_half_up (t a : Nat) (ht : t ≤ U128MAX) (ha : a ≤ U128MAX)
    (hfit : a * t ≤ U128MAX * DECIMAL_FRACTIONAL) :
    decimal_checked_mul t a = ExecResult.ok (round_half_up (a * t) DECIMAL_FRACTIONAL) :=
  dcm_ok_of_fits t a hfit

/-- C3 witness: 0.5 × 3 rounds half up to 2. -/
theorem checked_mul_round_half_up_witness :
    decimal_checked_mul (5 * 10 ^ 17) 3
      = ExecResult.ok (round_half_up (3 * (5 * 10 ^ 17)) DECIMAL_FRACTIONAL) :=
  checked_mul_round_half_up (5 * 10 ^ 17) 3 (by decide) (by decide) (by decide)

/-- C4 counterexample: a concrete coefficient/amount pair of representable
`Uint128` values whose exact rational product strictly exceeds `Uint128::MAX`
(last conjunct), yet `checked_mul` returns `Ok(Uint128::MAX)` instead of the
claimed `ArithmeticOverflow` error: the overflow test compares only the
floored quotient, so products in `(MAX, MAX + 1/2)` slip through. -/
theorem checked_mul_missed_overflow_cx :
    337311891633546086692571428571428571428 ≤ U128MAX ∧
    (1008806316530991104 : Nat) ≤ U128MAX ∧
    decimal_checked_mul 337311891633546086692571428571428571428 1008806316530991104
      = ExecResult.ok U128MAX ∧
    U128MAX * DECIMAL_FRACTIONAL
      < 1008806316530991104 * 337311891633546086692571428571428571428 := by
  refine ⟨by decide, by decide, by decide, by decide⟩

/-- C4 (amended): `checked_mul` returns the `ArithmeticOverflow` error exactly
when the exact rational product is at least `MAX + 1` (its integer floor
exceeds the `Uint128` range) — not when it merely exceeds `MAX`: products in
`(MAX, MAX + 1/2)` return `Ok(MAX)` and products in `[MAX + 1/2, MAX + 1)`
panic in the rounding increment. On the error path no value is returned. -/
theorem checked_mul_err_iff (t a : Nat) :
    decimal_checked_mul t a = ExecResult.overflowErr
      ↔ (U128MAX + 1) * DECIMAL_FRACTIONAL ≤ a * t :=
  dcm_err_iff t a

/-- C4 amended-theorem witness: 2^64 × 2^64 = 2^128 exceeds the range and
errors. -/
theorem checked_mul_err_iff_witness :
    decimal_checked_mul (2 ^ 64 * DECIMAL_FRACTIONAL) (2 ^ 64)
      = ExecResult.overflowErr :=
  (checked_mul_err_iff (2 ^ 64 * DECIMAL_FRACTIONAL) (2 ^ 64)).mpr (by decide)

/-! Claim theorems: decay evaluator (C1, C2, C10). -/

/-- C1 counterexample: a `Point` with integer slope `10^20` (atomics
`10^38`), power 1, start 0, queried at period `10^19 ≥ start`. The slope
multiply overflows `Uint128`, `calc_voting_power` falls back to shift 0 and
returns the full power 1, whereas the claimed exact formula
`max(0, power − slope·(period − start))` yields 0 (second conjunct). -/
theorem calc_voting_power_not_exact_cx :
    calc_voting_power ⟨1, 10 ^ 38, 0, 10⟩ (10 ^ 19) = ExecResult.ok 1 ∧
    max (0 : Int) (1 - 10 ^ 20 * ((10 : Int) ^ 19 - 0)) = 0 := by
  refine ⟨by decide, by decide⟩

/-- C1 (amended): for a `Point` whose slope is the integer `s` (a `Decimal`
with atomics `s * 10^18`, as the spec's data model describes slopes), every
period `≥ start`, and no overflow in the decay product
(`s * (period − start) ≤ Uint128::MAX`), `calc_voting_power` returns exactly
`max(0, power − s * (period − start))` — `Nat` truncated subtraction is that
`max`. When the product overflows, the code instead returns the full power
(see the counterexample and C10). -/
theorem calc_voting_power_exact_int_slope (s power start end_ period : Nat)
    (hs : s * DECIMAL_FRACTIONAL ≤ U128MAX) (hper : start ≤ period)
    (hmul : s * (period - start) ≤ U128MAX) :
    calc_voting_power ⟨power, s * DECIMAL_FRACTIONAL, start, end_⟩ period
      = ExecResult.ok (power - s * (period - start)) := by
  unfold calc_voting_power
  rw [dcm_int_slope s (period - start) hmul]

/-- C1 amended-theorem witness: slope 2, power 10, two elapsed periods. -/
theorem calc_voting_power_exact_int_slope_witness :
    calc_voting_power ⟨10, 2 * DECIMAL_FRACTIONAL, 3, 8⟩ 5
      = ExecResult.ok (10 - 2 * (5 - 3)) :=
  calc_voting_power_exact_int_slope 2 10 3 8 5 (by decide) (by decide) (by decide)

/-- Inside the lock's life the decay product fits, so `calc_voting_power`
returns power minus the rounded shift. -/
lemma calc_vp_in_range (t power start end_ p : Nat)
    (hinv : t * (end_ - start) = power * DECIMAL_FRACTIONAL)
    (hpow : power ≤ U128MAX) (hp : p ≤ end_) :
    calc_voting_power ⟨power, t, start, end_⟩ p
      = ExecResult.ok (power - round_half_up ((p - start) * t) DECIMAL_FRACTIONAL) := by
  have hfit : (p - start) * t ≤ U128MAX * DECIMAL_FRACTIONAL := by
    calc (p - start) * t
        ≤ (end_ - start) * t := Nat.mul_le_mul_right t (Nat.sub_le_sub_right hp start)
      _ = power * DECIMAL_FRACTIONAL := by rw [← hinv]; ring
      _ ≤ U128MAX * DECIMAL_FRACTIONAL := Nat.mul_le_mul_right _ hpow
  unfold calc_voting_power
  rw [dcm_ok_of_fits t (p - start) hfit]

/-- C2 counterexample: a `Point` satisfying the exact invariant
`power = slope·(end − start)` (slope `10^20`, ten periods, power `10^21`),
queried at the period `10^19 ≥ end`: the decay product overflows `Uint128`,
the shift falls back to 0, and the function returns the full power `10^21`
instead of the claimed 0. -/
theorem calc_voting_power_tail_overflow_cx :
    (10 : Nat) ^ 38 * ((10 : Nat) - 0) = 10 ^ 21 * DECIMAL_FRACTIONAL ∧
    (0 : Nat) ≤ 10 ∧ (10 : Nat) ≤ 10 ^ 19 ∧
    calc_voting_power ⟨10 ^ 21, 10 ^ 38, 0, 10⟩ (10 ^ 19) = ExecResult.ok (10 ^ 21) ∧
    calc_voting_power ⟨10 ^ 21, 10 ^ 38, 0, 10⟩ (10 ^ 19) ≠ ExecResult.ok 0 := by
  refine ⟨by decide, by decide, by decide, by decide, by decide⟩

/-- C2 (amended): for a `Point` with `start ≤ end` and the exact invariant
`slope·(end − start) = power` (stated on atomics:
`t * (end − start) = power * 10^18`): past `end` the voting power is 0
provided the decay product does not overflow `Uint128`
(`(p − start) * t ≤ MAX * 10^18`; otherwise the shift falls back to 0 and the
full power is returned — see the counterexample); on `[start, end]` the power
needs no side condition: it is non-increasing, equals `power` at `start` and
exactly 0 at `end`. -/
theorem calc_voting_power_decay (t power start end_ : Nat)
    (hinv : t * (end_ - start) = power * DECIMAL_FRACTIONAL)
    (hse : start ≤ end_) (hpow : power ≤ U128MAX) :
    (∀ p, end_ ≤ p → (p - start) * t ≤ U128MAX * DECIMAL_FRACTIONAL →
        calc_voting_power ⟨power, t, start, end_⟩ p = ExecResult.ok 0) ∧
    (∀ p1 p2, start ≤ p1 → p1 ≤ p2 → p2 ≤ end_ →
        ∃ v1 v2, calc_voting_power ⟨power, t, start, end_⟩ p1 = ExecResult.ok v1 ∧
          calc_voting_power ⟨power, t, start, end_⟩ p2 = ExecResult.ok v2 ∧ v2 ≤ v1) ∧
    calc_voting_power ⟨power, t, start, end_⟩ start = ExecResult.ok power ∧
    calc_voting_power ⟨power, t, start, end_⟩ end_ = ExecResult.ok 0 := by
  have hexact : (end_ - start) * t = power * DECIMAL_FRACTIONAL := by
    rw [← hinv]; ring
  refine ⟨?_, ?_, ?_, ?_⟩
  · intro p hp hfit
    unfold calc_voting_power
    rw [dcm_ok_of_fits t (p - start) hfit]
    have hge : power ≤ round_half_up ((p - start) * t) DECIMAL_FRACTIONAL := by
      have h1 : power * DECIMAL_FRACTIONAL ≤ (p - start) * t := by
        calc power * DECIMAL_FRACTIONAL
            = (end_ - start) * t := hexact.symm
          _ ≤ (p - start) * t :=
            Nat.mul_le_mul_right t (Nat.sub_le_sub_right hp start)
      calc power ≤ (p - start) * t / DECIMAL_FRACTIONAL :=
            (Nat.le_div_iff_mul_le DECIMAL_FRACTIONAL_pos).mpr h1
        _ ≤ round_half_up ((p - start) * t) DECIMAL_FRACTIONAL :=
            round_half_up_ge_div _ _
    show ExecResult.ok (power - round_half_up ((p - start) * t) DECIMAL_FRACTIONAL)
        = ExecResult.ok 0
    rw [Nat.sub_eq_zero_of_le hge]
  · intro p1 p2 h1 h2 h3
    refine ⟨power - round_half_up ((p1 - start) * t) DECIMAL_FRACTIONAL,
            power - round_half_up ((p2 - start) * t) DECIMAL_FRACTIONAL,
            calc_vp_in_range t power start end_ p1 hinv hpow (le_trans h2 h3),
            calc_vp_in_range t power start end_ p2 hinv hpow h3, ?_⟩
    apply Nat.sub_le_sub_left
    exact round_half_up_mono DECIMAL_FRACTIONAL _ _ DECIMAL_FRACTIONAL_pos
      (Nat.mul_le_mul_right t (Nat.sub_le_sub_right h2 start))
  · rw [calc_vp_in_range t power start end_ start hinv hpow hse]
    rw [Nat.sub_self]
    have h0 : round_half_up (0 * t) DECIMAL_FRACTIONAL = 0 := by
      rw [Nat.zero_mul]
      have := round_half_up_exact 0 DECIMAL_FRACTIONAL DECIMAL_FRACTIONAL_pos
      rw [Nat.zero_mul] at this
      exact this
    rw [h0, Nat.sub_zero]
  · rw [calc_vp_in_range t power start end_ end_ hinv hpow (le_refl end_)]
    rw [hexact, round_half_up_exact power DECIMAL_FRACTIONAL DECIMAL_FRACTIONAL_pos]
    rw [Nat.sub_self]

/-- C2 amended-theorem witness: slope 0.5 over four periods, power 2. -/
theorem calc_voting_power_decay_witness :
    calc_voting_power ⟨2, 5 * 10 ^ 17, 0, 4⟩ 0 = ExecResult.ok 2 ∧
    calc_voting_power ⟨2, 5 * 10 ^ 17, 0, 4⟩ 4 = ExecResult.ok 0 :=
  ⟨(calc_voting_power_decay (5 * 10 ^ 17) 2 0 4 (by decide) (by decide) (by decide)).2.2.1,
   (calc_voting_power_decay (5 * 10 ^ 17) 2 0 4 (by decide) (by decide) (by decide)).2.2.2⟩

/-- C10 counterexample: `calc_voting_power` is not total on
`period ≥ point.start`. For this representable slope and this `u64` period
the decay product's floored quotient is exactly `Uint128::MAX` with remainder
above one half, so the rounding increment inside `checked_mul` overflows
`Uint128` and panics — `unwrap_or_else` catches only the returned `Err`, not
the panic. -/
theorem calc_voting_power_panic_cx :
    (340282366920938462782809873589891285890 : Nat) ≤ U128MAX ∧
    (1000000000000000002 : Nat) < 2 ^ 64 ∧
    calc_voting_power ⟨1000, 340282366920938462782809873589891285890, 0, 1⟩
        1000000000000000002 = ExecResult.panicked := by
  refine ⟨by decide, by decide, by decide⟩

/-- C10 (amended): `calc_voting_power` never returns an arithmetic error, and
whenever the decay product is at least `MAX + 1` (so `checked_mul` reports
overflow) the shift falls back to zero and the full undecayed power is
returned. It is not panic-free, however: see the counterexample for the
boundary case where the product's floor is exactly `MAX` and the rounding
increment panics. -/
theorem calc_voting_power_no_error_fallback :
    (∀ pt p, calc_voting_power pt p ≠ ExecResult.overflowErr) ∧
    (∀ pt p, (U128MAX + 1) * DECIMAL_FRACTIONAL ≤ (p - pt.start) * pt.slope →
        calc_voting_power pt p = ExecResult.ok pt.power) := by
  constructor
  · intro pt p
    unfold calc_voting_power
    cases h : decimal_checked_mul pt.slope (p - pt.start) <;> simp
  · intro pt p hb
    unfold calc_voting_power
    rw [(dcm_err_iff pt.slope (p - pt.start)).mpr hb]

/-- C10 amended-theorem witness: an overflowing decay product returns the
full power. -/
theorem calc_voting_power_no_error_fallback_witness :
    calc_voting_power ⟨7, 10 ^ 38, 0, 10⟩ (10 ^ 19) = ExecResult.ok 7 :=
  calc_voting_power_no_error_fallback.2 ⟨7, 10 ^ 38, 0, 10⟩ (10 ^ 19) (by decide)

/-! Claim theorems: lock coefficient (C5) and stateless checks (C6, C9). -/

/-- C5 counterexample: with a weekly period and a two-year maximum lock
(`max_lock_periods = get_period(63072000) = 104`), `calc_coefficient 1` is
not the exact rational `1 + 1.5·1/104`: cross-multiplying by `10·104` the two
sides differ, because `Decimal::from_ratio` floors to 18 decimal places and
104 has the prime factor 13. -/
theorem calc_coefficient_not_exact_cx :
    calc_coefficient 604800 63072000 1 * (10 * get_period 604800 63072000)
      ≠ (10 * get_period 604800 63072000 + 15 * 1) * DECIMAL_FRACTIONAL := by
  decide

/-- C5 (amended): writing `P = max_lock_periods`, `calc_coefficient i` is the
exact rational `1 + 1.5·i/P` rounded down to the 18-decimal fixed-point grid:
its atomics `c` satisfy `10·P·c ≤ (10·P + 15·i)·10^18 < 10·P·c + 10·P`
(equality — exactness — only when the division is exact, which fails in
general). The endpoints are still exact: exactly 1.0 at `i = 0` and exactly
2.5 at `i = P`; and the coefficient is strictly increasing (for any
`P ≤ 1.5·10^18`, far above any realistic configuration). -/
theorem calc_coefficient_props (week mlt : Nat)
    (hP : 0 < get_period week mlt) (hPle : get_period week mlt ≤ 15 * 10 ^ 17) :
    calc_coefficient week mlt 0 = DECIMAL_FRACTIONAL ∧
    calc_coefficient week mlt (get_period week mlt) = 25 * 10 ^ 17 ∧
    (∀ i j, i < j → calc_coefficient week mlt i < calc_coefficient week mlt j) ∧
    (∀ i, 10 * get_period week mlt * calc_coefficient week mlt i
            ≤ (10 * get_period week mlt + 15 * i) * DECIMAL_FRACTIONAL ∧
          (10 * get_period week mlt + 15 * i) * DECIMAL_FRACTIONAL
            < 10 * get_period week mlt * calc_coefficient week mlt i
                + 10 * get_period week mlt) := by
  have hden : 0 < get_period week mlt * 10 := by omega
  refine ⟨?_, ?_, ?_, ?_⟩
  · unfold calc_coefficient
    rw [Nat.mul_zero, Nat.zero_mul, Nat.zero_div, Nat.add_zero]
  · unfold calc_coefficient
    have hnum : 15 * get_period week mlt * DECIMAL_FRACTIONAL
        = 15 * 10 ^ 17 * (get_period week mlt * 10) := by
      rw [show DECIMAL_FRACTIONAL = 10 ^ 18 from rfl]
      ring
    rw [hnum, Nat.mul_div_cancel _ hden]
    decide
  · intro i j hij
    unfold calc_coefficient
    apply Nat.add_lt_add_left
    apply Nat.lt_of_add_one_le
    calc 15 * i * DECIMAL_FRACTIONAL / (get_period week mlt * 10) + 1
        = (15 * i * DECIMAL_FRACTIONAL + get_period week mlt * 10)
            / (get_period week mlt * 10) := (Nat.add_div_right _ hden).symm
      _ ≤ 15 * j * DECIMAL_FRACTIONAL / (get_period week mlt * 10) := by
          apply Nat.div_le_div_right
          have hstep : 15 * i * DECIMAL_FRACTIONAL + 15 * DECIMAL_FRACTIONAL
              ≤ 15 * j * DECIMAL_FRACTIONAL := by
            have : 15 * (i + 1) * DECIMAL_FRACTIONAL ≤ 15 * j * DECIMAL_FRACTIONAL :=
              Nat.mul_le_mul_right _ (Nat.mul_le_mul_left 15 hij)
            calc 15 * i * DECIMAL_FRACTIONAL + 15 * DECIMAL_FRACTIONAL
                = 15 * (i + 1) * DECIMAL_FRACTIONAL := by ring
              _ ≤ 15 * j * DECIMAL_FRACTIONAL := this
          have hwk : get_period week mlt * 10 ≤ 15 * DECIMAL_FRACTIONAL := by
            rw [show DECIMAL_FRACTIONAL = 10 ^ 18 from rfl]
            calc get_period week mlt * 10 ≤ 15 * 10 ^ 17 * 10 :=
                  Nat.mul_le_mul_right 10 hPle
              _ = 15 * 10 ^ 18 := by ring
          omega
  · intro i
    unfold calc_coefficient
    have hlow : 15 * i * DECIMAL_FRACTIONAL / (get_period week mlt * 10)
          * (get_period week mlt * 10) ≤ 15 * i * DECIMAL_FRACTIONAL :=
      Nat.div_mul_le_self _ _
    have hhigh : 15 * i * DECIMAL_FRACTIONAL
        < (15 * i * DECIMAL_FRACTIONAL / (get_period week mlt * 10) + 1)
            * (get_period week mlt * 10) := by
      have hm := Nat.mod_lt (15 * i * DECIMAL_FRACTIONAL) hden
      calc 15 * i * DECIMAL_FRACTIONAL
          = get_period week mlt * 10
              * (15 * i * DECIMAL_FRACTIONAL / (get_period week mlt * 10))
              + 15 * i * DECIMAL_FRACTIONAL % (get_period week mlt * 10) :=
            (Nat.div_add_mod _ _).symm
        _ < get_period week mlt * 10
              * (15 * i * DECIMAL_FRACTIONAL / (get_period week mlt * 10))
              + get_period week mlt * 10 := Nat.add_lt_add_left hm _
        _ = (15 * i * DECIMAL_FRACTIONAL / (get_period week mlt * 10) + 1)
              * (get_period week mlt * 10) := by ring
    constructor
    · have : (10 * get_period week mlt + 15 * i) * DECIMAL_FRACTIONAL
          = 10 * get_period week mlt * DECIMAL_FRACTIONAL
              + 15 * i * DECIMAL_FRACTIONAL := by ring
      rw [this]
      have hmulc : 10 * get_period week mlt
            * (DECIMAL_FRACTIONAL
                + 15 * i * DECIMAL_FRACTIONAL / (get_period week mlt * 10))
          = 10 * get_period week mlt * DECIMAL_FRACTIONAL
              + (15 * i * DECIMAL_FRACTIONAL / (get_period week mlt * 10))
                  * (get_period week mlt * 10) := by ring
      rw [hmulc]
      exact Nat.add_le_add_left hlow _
    · have hsum : (10 * get_period week mlt + 15 * i) * DECIMAL_FRACTIONAL
          = 10 * get_period week mlt * DECIMAL_FRACTIONAL
              + 15 * i * DECIMAL_FRACTIONAL := by ring
      have hmulc : 10 * get_period week mlt
            * (DECIMAL_FRACTIONAL
                + 15 * i * DECIMAL_FRACTIONAL / (get_period week mlt * 10))
            + 10 * get_period week mlt
          = 10 * get_period week mlt * DECIMAL_FRACTIONAL
              + (15 * i * DECIMAL_FRACTIONAL / (get_period week mlt * 10) + 1)
                  * (get_period week mlt * 10) := by ring
      rw [hsum, hmulc]
      exact Nat.add_lt_add_left hhigh _

/-- C5 amended-theorem witness: at the weekly/two-year configuration the
coefficient tops out at exactly 2.5. -/
theorem calc_coefficient_props_witness :
    calc_coefficient 604800 63072000 (get_period 604800 63072000) = 25 * 10 ^ 17 :=
  (calc_coefficient_props 604800 63072000 (by decide) (by decide)).2.1

/-- C6 (confirmed): `time_limits_check` fails with the lock-duration
out-of-range error exactly when the duration is below `WEEK` or above
`MAX_LOCK_TIME`; both bounds are inclusive, so a duration equal to either
bound succeeds. -/
theorem time_limits_check_iff (week mlt t : Nat) :
    (time_limits_check week mlt t = Except.error ContractError.lockTimeLimitsError
        ↔ (t < week ∨ mlt < t)) ∧
    (week ≤ t → t ≤ mlt → time_limits_check week mlt t = Except.ok ()) := by
  unfold time_limits_check
  by_cases h : week ≤ t ∧ t ≤ mlt
  · rw [if_neg (not_not_intro h)]
    refine ⟨⟨fun hc => Except.noConfusion hc, fun hc => ?_⟩, fun _ _ => rfl⟩
    exfalso
    rcases hc with hc | hc <;> omega
  · rw [if_pos h]
    refine ⟨⟨fun _ => ?_, fun _ => rfl⟩, fun h1 h2 => absurd ⟨h1, h2⟩ h⟩
    omega

/-- C6 witness: the lower bound itself is accepted. -/
theorem time_limits_check_iff_witness :
    time_limits_check 604800 63072000 604800 = Except.ok () :=
  (time_limits_check_iff 604800 63072000 604800).2 (by decide) (by decide)

/-- C9 (confirmed): `blacklist_check` fails with `AddressBlacklisted`
carrying the queried address exactly when that address is in the blacklist,
and succeeds exactly when it is not; `xastro_token_check` fails with
`Unauthorized` exactly when the sender differs from the configured deposit
token address, and succeeds exactly on equality. Both checks only read the
given state (they are functions of it returning a bare result). -/
theorem access_guard_checks (blacklist : List String) (addr : String)
    (config : Config) (sender : String) :
    (blacklist_check blacklist addr
        = Except.error (ContractError.addressBlacklisted addr) ↔ addr ∈ blacklist) ∧
    (blacklist_check blacklist addr = Except.ok () ↔ addr ∉ blacklist) ∧
    (xastro_token_check config sender = Except.error ContractError.unauthorized
        ↔ sender ≠ config.deposit_token_addr) ∧
    (xastro_token_check config sender = Except.ok ()
        ↔ sender = config.deposit_token_addr) := by
  unfold blacklist_check xastro_token_check
  refine ⟨?_, ?_, ?_, ?_⟩
  · by_cases h : addr ∈ blacklist
    · rw [if_pos h]
      exact ⟨fun _ => h, fun _ => rfl⟩
    · rw [if_neg h]
      exact ⟨fun hc => Except.noConfusion hc, fun hc => absurd hc h⟩
  · by_cases h : addr ∈ blacklist
    · rw [if_pos h]
      exact ⟨fun hc => Except.noConfusion hc, fun hc => absurd h hc⟩
    · rw [if_neg h]
      exact ⟨fun _ => h, fun _ => rfl⟩
  · by_cases h : sender = config.deposit_token_addr
    · rw [if_neg (not_not_intro h)]
      exact ⟨fun hc => Except.noConfusion hc, fun hc => absurd h hc⟩
    · rw [if_pos h]
      exact ⟨fun _ => h, fun _ => rfl⟩
  · by_cases h : sender = config.deposit_token_addr
    · rw [if_neg (not_not_intro h)]
      exact ⟨fun _ => h, fun _ => rfl⟩
    · rw [if_pos h]
      exact ⟨fun hc => Except.noConfusion hc, fun hc => absurd hc h⟩

/-! Key-encoding lemmas: fixed-width big-endian bytes compare
lexicographically exactly as the numbers they encode. -/

lemma be_digits_length : ∀ k n, (be_digits k n).length = k := by
  intro k
  induction k with
  | zero => intro n; rfl
  | succ k ih => intro n; simp [be_digits, ih]

lemma u64_key_len (n : Nat) : (u64_key n).length = 8 := be_digits_length 8 n

lemma be_digits_foldl : ∀ k n acc, n < 256 ^ k →
    (be_digits k n).foldl (fun a b => a * 256 + b) acc = acc * 256 ^ k + n := by
  intro k
  induction k with
  | zero =>
    intro n acc h
    have : n = 0 := Nat.lt_one_iff.mp h
    simp [be_digits, this]
  | succ k ih =>
    intro n acc h
    have hB : 0 < 256 ^ k := pow_pos (by norm_num) k
    show List.foldl (fun a b => a * 256 + b) (acc * 256 + n / 256 ^ k)
        (be_digits k (n % 256 ^ k)) = acc * 256 ^ (k + 1) + n
    rw [ih (n % 256 ^ k) (acc * 256 + n / 256 ^ k) (Nat.mod_lt n hB)]
    calc (acc * 256 + n / 256 ^ k) * 256 ^ k + n % 256 ^ k
        = acc * (256 ^ k * 256) + (256 ^ k * (n / 256 ^ k) + n % 256 ^ k) := by ring
      _ = acc * (256 ^ k * 256) + n := by rw [Nat.div_add_mod]
      _ = acc * 256 ^ (k + 1) + n := by rw [pow_succ]

lemma u64_from_be_key (n : Nat) (h : n < 2 ^ 64) : u64_from_be (u64_key n) = n := by
  unfold u64_from_be u64_key
  rw [be_digits_foldl 8 n 0 (lt_of_lt_of_le h (by norm_num))]
  simp

lemma nat_lt_of_div_lt_div {a b k : Nat} (h : a / k < b / k) : a < b := by
  by_contra hc
  exact absurd (Nat.div_le_div_right (Nat.not_lt.mp hc)) (Nat.not_le.mpr h)

lemma be_lt_iff : ∀ k a b, a < 256 ^ k → b < 256 ^ k →
    (lex_lt (be_digits k a) (be_digits k b) = true ↔ a < b) := by
  intro k
  induction k with
  | zero =>
    intro a b ha hb
    constructor
    · intro h; exact Bool.noConfusion h
    · intro h; omega
  | succ k ih =>
    intro a b ha hb
    have hB : 0 < 256 ^ k := pow_pos (by norm_num) k
    show (if a / 256 ^ k < b / 256 ^ k then true
        else if b / 256 ^ k < a / 256 ^ k then false
        else lex_lt (be_digits k (a % 256 ^ k)) (be_digits k (b % 256 ^ k))) = true
      ↔ a < b
    by_cases h1 : a / 256 ^ k < b / 256 ^ k
    · rw [if_pos h1]
      exact ⟨fun _ => nat_lt_of_div_lt_div h1, fun _ => rfl⟩
    · rw [if_neg h1]
      by_cases h2 : b / 256 ^ k < a / 256 ^ k
      · rw [if_pos h2]
        refine ⟨fun hc => Bool.noConfusion hc, fun hc => absurd hc ?_⟩
        have := nat_lt_of_div_lt_div h2
        omega
      · rw [if_neg h2]
        have heq : a / 256 ^ k = b / 256 ^ k :=
          Nat.le_antisymm (Nat.not_lt.mp h2) (Nat.not_lt.mp h1)
        rw [ih (a % 256 ^ k) (b % 256 ^ k) (Nat.mod_lt a hB) (Nat.mod_lt b hB)]
        constructor
        · intro h
          calc a = 256 ^ k * (a / 256 ^ k) + a % 256 ^ k := (Nat.div_add_mod a _).symm
            _ < 256 ^ k * (b / 256 ^ k) + b % 256 ^ k := by
                rw [heq]; exact Nat.add_lt_add_left h _
            _ = b := Nat.div_add_mod b _
        · intro h
          by_contra hc
          have hba : b ≤ a := by
            calc b = 256 ^ k * (b / 256 ^ k) + b % 256 ^ k := (Nat.div_add_mod b _).symm
              _ ≤ 256 ^ k * (a / 256 ^ k) + a % 256 ^ k := by
                  rw [← heq]; exact Nat.add_le_add_left (Nat.not_lt.mp hc) _
              _ = a := Nat.div_add_mod a _
          omega

lemma be_le_iff : ∀ k a b, a < 256 ^ k → b < 256 ^ k →
    (lex_le (be_digits k a) (be_digits k b) = true ↔ a ≤ b) := by
  intro k
  induction k with
  | zero =>
    intro a b ha hb
    constructor
    · intro _; omega
    · intro _; rfl
  | succ k ih =>
    intro a b ha hb
    have hB : 0 < 256 ^ k := pow_pos (by norm_num) k
    show (if a / 256 ^ k < b / 256 ^ k then true
        else if b / 256 ^ k < a / 256 ^ k then false
        else lex_le (be_digits k (a % 256 ^ k)) (be_digits k (b % 256 ^ k))) = true
      ↔ a ≤ b
    by_cases h1 : a / 256 ^ k < b / 256 ^ k
    · rw [if_pos h1]
      exact ⟨fun _ => Nat.le_of_lt (nat_lt_of_div_lt_div h1), fun _ => rfl⟩
    · rw [if_neg h1]
      by_cases h2 : b / 256 ^ k < a / 256 ^ k
      · rw [if_pos h2]
        refine ⟨fun hc => Bool.noConfusion hc, fun hc => absurd hc ?_⟩
        have := nat_lt_of_div_lt_div h2
        omega
      · rw [if_neg h2]
        have heq : a / 256 ^ k = b / 256 ^ k :=
          Nat.le_antisymm (Nat.not_lt.mp h2) (Nat.not_lt.mp h1)
        rw [ih (a % 256 ^ k) (b % 256 ^ k) (Nat.mod_lt a hB) (Nat.mod_lt b hB)]
        constructor
        · intro h
          calc a = 256 ^ k * (a / 256 ^ k) + a % 256 ^ k := (Nat.div_add_mod a _).symm
            _ ≤ 256 ^ k * (b / 256 ^ k) + b % 256 ^ k := by
                rw [heq]; exact Nat.add_le_add_left h _
            _ = b := Nat.div_add_mod b _
        · intro h
          by_contra hc
          have hba : b < a := by
            calc b = 256 ^ k * (b / 256 ^ k) + b % 256 ^ k := (Nat.div_add_mod b _).symm
              _ < 256 ^ k * (a / 256 ^ k) + a % 256 ^ k := by
                  rw [← heq]; exact Nat.add_lt_add_left (Nat.not_le.mp hc) _
              _ = a := Nat.div_add_mod a _
          omega

lemma u64_key_lt (x y : Nat) (hx : x < 2 ^ 64) (hy : y < 2 ^ 64) :
    lex_lt (u64_key x) (u64_key y) = decide (x < y) := by
  have h := be_lt_iff 8 x y (lt_of_lt_of_le hx (by norm_num))
    (lt_of_lt_of_le hy (by norm_num))
  by_cases hxy : x < y
  · rw [decide_eq_true hxy]
    exact h.mpr hxy
  · rw [decide_eq_false hxy]
    exact Bool.eq_false_iff.mpr fun hc => hxy (h.mp hc)

lemma u64_key_le (x y : Nat) (hx : x < 2 ^ 64) (hy : y < 2 ^ 64) :
    lex_le (u64_key x) (u64_key y) = decide (x ≤ y) := by
  have h := be_le_iff 8 x y (lt_of_lt_of_le hx (by norm_num))
    (lt_of_lt_of_le hy (by norm_num))
  by_cases hxy : x ≤ y
  · rw [decide_eq_true hxy]
    exact h.mpr hxy
  · rw [decide_eq_false hxy]
    exact Bool.eq_false_iff.mpr fun hc => hxy (h.mp hc)

lemma mapM_ok {α β γ : Type} (f : α → Except γ β) (g : α → β) :
    ∀ l : List α, (∀ e ∈ l, f e = Except.ok (g e)) → l.mapM f = Except.ok (l.map g) := by
  intro l
  induction l with
  | nil => intro _; rfl
  | cons x xs ih =>
    intro h
    rw [List.mapM_cons, h x (List.mem_cons_self x xs),
      ih fun e he => h e (List.mem_cons_of_mem x he), List.map_cons]
    rfl

lemma map_id_of_mem {α : Type} (g : α → α) :
    ∀ l : List α, (∀ e ∈ l, g e = e) → l.map g = l := by
  intro l
  induction l with
  | nil => intro _; rfl
  | cons x xs ih =>
    intro h
    rw [List.map_cons, h x (List.mem_cons_self x xs),
      ih fun e he => h e (List.mem_cons_of_mem x he)]

/-- In a strictly sorted list, `getLast?` is the maximum: it dominates every
member. -/
lemma getLast?_max {α : Type} (f : α → Nat) :
    ∀ l : List α, l.Pairwise (fun x y => f x < f y) → ∀ a ∈ l,
      ∃ m, l.getLast? = some m ∧ m ∈ l ∧ f a ≤ f m := by
  intro l
  induction l with
  | nil => intro _ a ha; exact absurd ha (List.not_mem_nil a)
  | cons x xs ih =>
    intro hp a ha
    have hx := (List.pairwise_cons.mp hp).1
    have hxs := (List.pairwise_cons.mp hp).2
    cases xs with
    | nil =>
      have hax : a = x := by
        rcases List.mem_cons.mp ha with h | h
        · exact h
        · exact absurd h (List.not_mem_nil a)
      exact ⟨x, rfl, List.mem_cons_self x [], by rw [hax]⟩
    | cons y ys =>
      rw [List.getLast?_cons_cons]
      rcases List.mem_cons.mp ha with h | h
      · obtain ⟨m, hm, hmm, hle⟩ := ih hxs y (List.mem_cons_self y ys)
        refine ⟨m, hm, List.mem_cons_of_mem x hmm, ?_⟩
        have hxy : f a < f y := by
          rw [h]; exact hx y (List.mem_cons_self y ys)
        exact Nat.le_of_lt (Nat.lt_of_lt_of_le hxy hle)
      · obtain ⟨m, hm, hmm, hle⟩ := ih hxs a h
        exact ⟨m, hm, List.mem_cons_of_mem x hmm, hle⟩

/-- Lexicographic sortedness of the encoded store implies numeric sortedness
of the periods (C7's parenthetical: big-endian keys make scan order equal
numeric order). -/
lemma pairwise_key_lt_of_lex {β : Type} (sc : List (Nat × β))
    (hk : ∀ e ∈ sc, e.1 < 2 ^ 64)
    (hsort : (sc.map fun e => (u64_key e.1, e.2)).Pairwise
      fun x y => lex_lt x.1 y.1 = true) :
    sc.Pairwise fun x y => x.1 < y.1 := by
  have h := List.pairwise_map.mp hsort
  refine List.Pairwise.imp_of_mem ?_ h
  intro a b ha hb hab
  exact (be_lt_iff 8 a.1 b.1 (lt_of_lt_of_le (hk a ha) (by norm_num))
    (lt_of_lt_of_le (hk b hb) (by norm_num))).mp hab

/-! Claim theorems: storage scans (C7, C8). -/

/-- C7 (confirmed): over a slope-change schedule whose raw store holds the
8-byte big-endian keys of periods below `2^64` in the backend's lexicographic
scan order, `fetch_slope_changes lo hi` deserializes without error and
returns exactly the (period, delta) entries with `lo < period ≤ hi` — lower
bound exclusive, upper bound inclusive — and that sequence is sorted in
strictly ascending numeric period order (the big-endian encoding makes
lexicographic scan order coincide with numeric order). -/
theorem fetch_slope_changes_window (sc : List (Nat × Nat)) (lo hi : Nat)
    (hk : ∀ e ∈ sc, e.1 < 2 ^ 64) (hlo : lo < 2 ^ 64) (hhi : hi < 2 ^ 64)
    (hsort : (sc.map fun e => (u64_key e.1, e.2)).Pairwise
      fun x y => lex_lt x.1 y.1 = true) :
    fetch_slope_changes (sc.map fun e => (u64_key e.1, e.2)) lo hi
        = Except.ok (sc.filter fun e => decide (lo < e.1) && decide (e.1 ≤ hi)) ∧
    (sc.filter fun e => decide (lo < e.1) && decide (e.1 ≤ hi)).Pairwise
      fun x y => x.1 < y.1 := by
  have hnum := pairwise_key_lt_of_lex sc hk hsort
  constructor
  · unfold fetch_slope_changes
    rw [List.filter_map]
    have hpred : ∀ e ∈ sc,
        ((fun x : List Nat × Nat => lex_lt (u64_key lo) x.1 && lex_le x.1 (u64_key hi))
            ∘ fun e : Nat × Nat => (u64_key e.1, e.2)) e
          = (decide (lo < e.1) && decide (e.1 ≤ hi)) := by
      intro e he
      show (lex_lt (u64_key lo) (u64_key e.1) && lex_le (u64_key e.1) (u64_key hi))
          = (decide (lo < e.1) && decide (e.1 ≤ hi))
      rw [u64_key_lt lo e.1 hlo (hk e he), u64_key_le e.1 hi (hk e he) hhi]
    rw [List.filter_congr hpred]
    have hok : ∀ e ∈ (sc.filter fun e => decide (lo < e.1) && decide (e.1 ≤ hi)).map
          (fun e : Nat × Nat => (u64_key e.1, e.2)),
        deserialize_pair e
          = Except.ok ((fun pr : List Nat × Nat => (u64_from_be pr.1, pr.2)) e) := by
      intro e he
      obtain ⟨a, _, rfl⟩ := List.mem_map.mp he
      unfold deserialize_pair
      rw [if_pos (u64_key_len a.1)]
    rw [mapM_ok deserialize_pair (fun pr : List Nat × Nat => (u64_from_be pr.1, pr.2))
      _ hok]
    rw [List.map_map]
    congr 1
    apply map_id_of_mem
    intro e he
    have hee : e ∈ sc := (List.mem_filter.mp he).1
    show (u64_from_be (u64_key e.1), e.2) = e
    rw [u64_from_be_key e.1 (hk e hee)]
  · exact hnum.filter _

/-- C7 witness: a three-entry schedule, window (2, 300]. -/
theorem fetch_slope_changes_window_witness :
    fetch_slope_changes
        ([((2 : Nat), (11 : Nat)), (5, 22), (300, 33)].map fun e => (u64_key e.1, e.2))
        2 300
      = Except.ok ([((2 : Nat), (11 : Nat)), (5, 22), (300, 33)].filter
          fun e => decide (2 < e.1) && decide (e.1 ≤ 300)) :=
  (fetch_slope_changes_window [(2, 11), (5, 22), (300, 33)] 2 300
    (by decide) (by decide) (by decide) (by decide)).1

/-- C8 (confirmed): over a per-account checkpoint history whose raw store
holds 8-byte big-endian period keys in lexicographic scan order,
`fetch_last_checkpoint` returns `none` (not an error) when every stored
period exceeds the query period, and otherwise returns the stored entry whose
period is the greatest one `≤` the query period (it dominates every entry at
or before the query period). -/
theorem fetch_last_checkpoint_correct (hist : List (Nat × Point)) (period : Nat)
    (hk : ∀ e ∈ hist, e.1 < 2 ^ 64) (hp : period < 2 ^ 64)
    (hsort : (hist.map fun e => (u64_key e.1, e.2)).Pairwise
      fun x y => lex_lt x.1 y.1 = true) :
    ((∀ e ∈ hist, period < e.1) →
        fetch_last_checkpoint (hist.map fun e => (u64_key e.1, e.2)) period = none) ∧
    (∀ e ∈ hist, e.1 ≤ period →
        ∃ m : Nat × Point,
          fetch_last_checkpoint (hist.map fun e => (u64_key e.1, e.2)) period
              = some (u64_key m.1, m.2) ∧ m ∈ hist ∧ m.1 ≤ period ∧ e.1 ≤ m.1) := by
  have hred : fetch_last_checkpoint (hist.map fun e => (u64_key e.1, e.2)) period
      = Option.map (fun e : Nat × Point => (u64_key e.1, e.2))
          ((hist.filter fun e => decide (e.1 ≤ period)).getLast?) := by
    unfold fetch_last_checkpoint
    rw [List.filter_map]
    have hpred : ∀ e ∈ hist,
        ((fun x : List Nat × Point => lex_le x.1 (u64_key period))
            ∘ fun e : Nat × Point => (u64_key e.1, e.2)) e
          = decide (e.1 ≤ period) := by
      intro e he
      show lex_le (u64_key e.1) (u64_key period) = decide (e.1 ≤ period)
      exact u64_key_le e.1 period (hk e he) hp
    rw [List.filter_congr hpred, List.getLast?_map]
  constructor
  · intro hall
    rw [hred]
    have hnil : (hist.filter fun e => decide (e.1 ≤ period)) = [] := by
      apply List.filter_eq_nil_iff.mpr
      intro a ha
      simp only [decide_eq_true_eq]
      exact Nat.not_le.mpr (hall a ha)
    rw [hnil]
    rfl
  · intro e he hle
    have hnum := pairwise_key_lt_of_lex hist hk hsort
    have hfp := hnum.filter fun x => decide (x.1 ≤ period)
    have hmem : e ∈ hist.filter fun x => decide (x.1 ≤ period) :=
      List.mem_filter.mpr ⟨he, decide_eq_true hle⟩
    obtain ⟨m, hm, hmm, hfm⟩ := getLast?_max (fun x => x.1) _ hfp e hmem
    have hmf := List.mem_filter.mp hmm
    refine ⟨m, ?_, hmf.1, of_decide_eq_true hmf.2, hfm⟩
    rw [hred, hm]
    rfl

/-- C8 witness: two checkpoints at periods 2 and 5, query period 4. -/
theorem fetch_last_checkpoint_correct_witness :
    ∃ m : Nat × Point,
      fetch_last_checkpoint
          ([((2 : Nat), Point.mk 7 0 2 9), (5, Point.mk 3 0 5 9)].map
            fun e => (u64_key e.1, e.2)) 4
        = some (u64_key m.1, m.2)
      ∧ m ∈ [((2 : Nat), Point.mk 7 0 2 9), (5, Point.mk 3 0 5 9)]
      ∧ m.1 ≤ 4 ∧ (2 : Nat) ≤ m.1 :=
  (fetch_last_checkpoint_correct [(2, Point.mk 7 0 2 9), (5, Point.mk 3 0 5 9)] 4
    (by decide) (by decide) (by decide)).2 (2, Point.mk 7 0 2 9) (by decide) (by decide)
